import Mathlib

set_option maxHeartbeats 4000000

set_option maxRecDepth 4000

set_option linter.unusedVariables false

/-!
Verification development for the `custom-proxy` rewriting HTTP proxy
(`src/custom-proxy/index.js`).

JavaScript strings are embedded as their UTF-8 byte sequences (`List Nat`,
each element < 256).  All string manipulation performed by the proxy
(prefix tests, concatenation, base64, percent-decoding, URL parsing) is
byte-oriented at this level, so the embedding is exact for the operations
involved.  Platform builtins (`Buffer`, `decodeURIComponent`, `new URL`)
are modelled explicitly below following their standardised semantics.
-/

/-- Embed an ASCII/Unicode string literal as its list of code points.
For the ASCII data appearing in this development this coincides with the
UTF-8 byte sequence of the JavaScript string. -/
def jstr (s : String) : List Nat := s.data.map Char.toNat

/-- `true` when `pre` is a prefix of `l` (models JS `String.startsWith`). -/
def startsWithStr (pre l : List Nat) : Bool := List.isPrefixOf pre l

/-- Index of `c` in `l`, if present. -/
def idxOf : List Nat → Nat → Option Nat
  | [], _ => none
  | a :: rest, c => if a = c then some 0 else (idxOf rest c).map (· + 1)

/-- Split a byte list at every occurrence of `sep`
(models JS `String.split(sep)` for a one-character separator). -/
def splitOnByte (sep : Nat) : List Nat → List (List Nat)
  | [] => [[]]
  | c :: rest =>
    let r := splitOnByte sep rest
    if c = sep then [] :: r
    else match r with
      | [] => [[c]]
      | h :: t => (c :: h) :: t

/-- JS whitespace for `trim` / `\s` at the ASCII level. -/
def isJsWs (c : Nat) : Bool := c = 9 ∨ c = 10 ∨ c = 11 ∨ c = 12 ∨ c = 13 ∨ c = 32

/-- Models JS `String.trim` (ASCII whitespace suffices for our data). -/
def jsTrim (l : List Nat) : List Nat :=
  ((l.dropWhile isJsWs).reverse.dropWhile isJsWs).reverse

/-- Split on runs of whitespace (models JS `split(/\s+/)`: an empty input
yields the single empty field, and a run of adjacent whitespace produces a
single field break, as in JS). -/
def splitWsRuns : List Nat → List (List Nat)
  | [] => [[]]
  | c :: rest =>
    let r := splitWsRuns rest
    if isJsWs c then
      match rest with
      | c2 :: _ => if isJsWs c2 then r else [] :: r
      | [] => [] :: r
    else
      match r with
      | [] => [[c]]
      | h :: t => (c :: h) :: t

/-- Substring containment test (models JS `String.includes`). -/
def containsSub (sub : List Nat) : List Nat → Bool
  | [] => List.isPrefixOf sub []
  | c :: rest => List.isPrefixOf sub (c :: rest) || containsSub sub rest

/-- Join with a separator (models JS `Array.join(sep)`). -/
def joinWith (sep : List Nat) : List (List Nat) → List Nat
  | [] => []
  | [x] => x
  | x :: y :: t => x ++ sep ++ joinWith sep (y :: t)

/-! ## Base64 (Node `Buffer.from(s).toString('base64')` / `Buffer.from(t,'base64')`) -/

/-- The standard base64 alphabet as ASCII byte values. -/
def b64Alphabet : List Nat :=
  (List.range 26).map (· + 65) ++ (List.range 26).map (· + 97) ++
  (List.range 10).map (· + 48) ++ [43, 47]

/-- Byte of the base64 character for a sextet. -/
def b64Char (n : Nat) : Nat := b64Alphabet.getD n 0

/-- Sextet of a base64 character byte, if it is in the alphabet. -/
def b64CharVal (c : Nat) : Option Nat := idxOf b64Alphabet c

/-- Base64 encoding of a byte sequence, with `=` padding, exactly as
produced by Node's `Buffer.prototype.toString('base64')`. -/
def encodeB64 : List Nat → List Nat
  | a :: b :: c :: rest =>
    b64Char (a / 4) :: b64Char ((a % 4) * 16 + b / 16) ::
    b64Char ((b % 16) * 4 + c / 64) :: b64Char (c % 64) :: encodeB64 rest
  | [a] => [b64Char (a / 4), b64Char ((a % 4) * 16), 61, 61]
  | [a, b] => [b64Char (a / 4), b64Char ((a % 4) * 16 + b / 16), b64Char ((b % 16) * 4), 61]
  | [] => []

/-- Reassemble bytes from a list of sextets (groups of 4, with the usual
2- and 3-sextet tails produced by padding). -/
def decodeSextets : List Nat → List Nat
  | s1 :: s2 :: s3 :: s4 :: rest =>
    (s1 * 4 + s2 / 16) :: ((s2 % 16) * 16 + s3 / 4) :: ((s3 % 4) * 64 + s4) ::
    decodeSextets rest
  | [s1, s2, s3] => [s1 * 4 + s2 / 16, (s2 % 16) * 16 + s3 / 4]
  | [s1, s2] => [s1 * 4 + s2 / 16]
  | _ => []

/-- Base64 decoding as performed by Node's lenient
`Buffer.from(t, 'base64')`: characters outside the alphabet are skipped,
decoding stops at the first `=` padding byte, and a trailing lone sextet
is dropped. Never throws. -/
def decodeB64 (t : List Nat) : List Nat :=
  decodeSextets ((t.takeWhile (fun c => c != 61)).filterMap b64CharVal)

/-! ## UTF-8 (Node `Buffer.prototype.toString('utf-8')`) -/

/-- Length of a UTF-8 sequence from its leading byte (0 = invalid lead). -/
def utf8Len (b : Nat) : Nat :=
  if b < 128 then 1
  else if 194 ≤ b ∧ b ≤ 223 then 2
  else if 224 ≤ b ∧ b ≤ 239 then 3
  else if 240 ≤ b ∧ b ≤ 244 then 4
  else 0

/-- UTF-8 continuation byte. -/
def contOk (b : Nat) : Bool := decide (128 ≤ b ∧ b ≤ 191)

/-- Valid 2-byte sequence (lead already constrained to `194..223`). -/
def seqOk2 (_b c1 : Nat) : Bool := contOk c1

/-- Valid 3-byte sequence, excluding overlong and surrogate encodings. -/
def seqOk3 (b c1 c2 : Nat) : Bool :=
  contOk c1 && contOk c2 &&
  (if b = 224 then decide (160 ≤ c1) else if b = 237 then decide (c1 ≤ 159) else true)

/-- Valid 4-byte sequence, excluding overlong and out-of-range encodings. -/
def seqOk4 (b c1 c2 c3 : Nat) : Bool :=
  contOk c1 && contOk c2 && contOk c3 &&
  (if b = 240 then decide (144 ≤ c1) else if b = 244 then decide (c1 ≤ 143) else true)

/-- One 2-byte continuation tail. -/
def utf8Step2 (b : Nat) : List Nat → Option (List Nat × List Nat)
  | c1 :: r => if seqOk2 b c1 then some ([b, c1], r) else none
  | [] => none

/-- One 3-byte continuation tail. -/
def utf8Step3 (b : Nat) : List Nat → Option (List Nat × List Nat)
  | c1 :: c2 :: r => if seqOk3 b c1 c2 then some ([b, c1, c2], r) else none
  | _ => none

/-- One 4-byte continuation tail. -/
def utf8Step4 (b : Nat) : List Nat → Option (List Nat × List Nat)
  | c1 :: c2 :: c3 :: r => if seqOk4 b c1 c2 c3 then some ([b, c1, c2, c3], r) else none
  | _ => none

/-- Take one well-formed UTF-8 sequence off the front of a byte list,
returning the sequence and the remainder. -/
def utf8Step : List Nat → Option (List Nat × List Nat)
  | [] => none
  | b :: rest =>
    if utf8Len b = 1 then some ([b], rest)
    else if utf8Len b = 2 then utf8Step2 b rest
    else if utf8Len b = 3 then utf8Step3 b rest
    else if utf8Len b = 4 then utf8Step4 b rest
    else none

/-- Fuelled UTF-8 validity scan (`fuel ≥ length` always suffices). -/
def validUtf8Aux : Nat → List Nat → Bool
  | _, [] => true
  | 0, _ :: _ => false
  | fuel + 1, b :: rest =>
    match utf8Step (b :: rest) with
    | some (_, r) => validUtf8Aux fuel r
    | none => false

/-- The byte list is a well-formed UTF-8 encoding. -/
def isValidUtf8 (l : List Nat) : Bool := validUtf8Aux l.length l

/-- UTF-8 bytes of U+FFFD REPLACEMENT CHARACTER. -/
def fffd : List Nat := [239, 191, 189]

/-- Fuelled lossy UTF-8 re-decoding: well-formed sequences are copied,
an ill-formed byte is replaced by U+FFFD.  This models the composite
`Buffer.from(bytes).toString('utf-8')` at the byte-sequence level
(the replacement granularity of ill-formed input is approximated; only
the well-formed path is relied upon below). -/
def utf8SanitizeAux : Nat → List Nat → List Nat
  | _, [] => []
  | 0, _ :: _ => []
  | fuel + 1, b :: rest =>
    match utf8Step (b :: rest) with
    | some (seq, r) => seq ++ utf8SanitizeAux fuel r
    | none => fffd ++ utf8SanitizeAux fuel rest

/-- Node's `buf.toString('utf-8')`, seen as a byte-sequence transformer. -/
def utf8Sanitize (l : List Nat) : List Nat := utf8SanitizeAux l.length l

/-! ## `decodeURIComponent` (ECMA-262 Decode, at the UTF-8 byte level) -/

/-- Hex digit value of an ASCII byte. -/
def hexVal (c : Nat) : Option Nat :=
  if 48 ≤ c ∧ c ≤ 57 then some (c - 48)
  else if 65 ≤ c ∧ c ≤ 70 then some (c - 55)
  else if 97 ≤ c ∧ c ≤ 102 then some (c - 87)
  else none

/-- Read one `%XY` escape from the front, returning its byte value. -/
def readEscByte : List Nat → Option (Nat × List Nat)
  | 37 :: h1 :: h2 :: r =>
    match hexVal h1, hexVal h2 with
    | some a, some b => some (a * 16 + b, r)
    | _, _ => none
  | _ => none

/-- Fuelled ECMA-262 `Decode` on UTF-8 byte sequences with an empty
reserved set (= `decodeURIComponent`): a literal byte is copied, `%XY`
escapes are decoded, and an escaped lead byte ≥ 0x80 must be followed by
the right number of escaped continuation bytes forming a well-formed
UTF-8 sequence, else the whole decode throws (`none`). -/
def percentDecodeAux : Nat → List Nat → Option (List Nat)
  | _, [] => some []
  | 0, _ :: _ => none
  | fuel + 1, c :: rest =>
    if c = 37 then
      match rest with
      | h1 :: h2 :: r1 =>
        match hexVal h1, hexVal h2 with
        | some a, some b =>
          let B := a * 16 + b
          if B < 128 then (percentDecodeAux fuel r1).map (fun t => B :: t)
          else if utf8Len B = 2 then
            match readEscByte r1 with
            | some (c1, r2) =>
              if seqOk2 B c1 then (percentDecodeAux fuel r2).map (fun t => B :: c1 :: t)
              else none
            | none => none
          else if utf8Len B = 3 then
            match readEscByte r1 with
            | some (c1, r2) =>
              match readEscByte r2 with
              | some (c2, r3) =>
                if seqOk3 B c1 c2 then
                  (percentDecodeAux fuel r3).map (fun t => B :: c1 :: c2 :: t)
                else none
              | none => none
            | none => none
          else if utf8Len B = 4 then
            match readEscByte r1 with
            | some (c1, r2) =>
              match readEscByte r2 with
              | some (c2, r3) =>
                match readEscByte r3 with
                | some (c3, r4) =>
                  if seqOk4 B c1 c2 c3 then
                    (percentDecodeAux fuel r4).map (fun t => B :: c1 :: c2 :: c3 :: t)
                  else none
                | none => none
              | none => none
            | none => none
          else none
        | _, _ => none
      | _ => none
    else (percentDecodeAux fuel rest).map (fun t => c :: t)

/-- `decodeURIComponent`, as a transformer of UTF-8 byte sequences
(`none` models a thrown `URIError`). -/
def decodeURIComponentBytes (l : List Nat) : Option (List Nat) :=
  percentDecodeAux l.length l

/-! ## The proxy's URL codec (`encodeUrl` / `decodeUrl`,
`src/custom-proxy/index.js` lines 35-51) -/

/-- `encodeUrl(url) = Buffer.from(url).toString('base64')`: base64 of the
URL's UTF-8 bytes. Never throws for a string input. -/
def encodeUrl (url : List Nat) : List Nat := encodeB64 url

/-- `decodeUrl(encoded) =
decodeURIComponent(Buffer.from(encoded, 'base64').toString('utf-8'))`.
`none` models the thrown error (only `decodeURIComponent` can throw;
Node's base64 decoder is lenient and total). -/
def decodeUrl (encoded : List Nat) : Option (List Nat) :=
  decodeURIComponentBytes (utf8Sanitize (decodeB64 encoded))

/-! ## `new URL(...)` (WHATWG URL) — validation, resolution, serialization

Modelled for the URL shapes the proxy manipulates: absolute http/https
URLs with an ASCII host, optional port, path, query and fragment, and
relative references resolved against such a base.  IDNA, IPv6 hosts,
`file:` special cases and the `%2e` dot-segment spellings are outside the
model; non-special schemes serialize approximately as themselves. -/

def isAsciiAlpha (c : Nat) : Bool := decide ((65 ≤ c ∧ c ≤ 90) ∨ (97 ≤ c ∧ c ≤ 122))

def isAsciiDigit (c : Nat) : Bool := decide (48 ≤ c ∧ c ≤ 57)

/-- Bytes allowed in a scheme after the first (alpha, digit, `+`, `-`, `.`). -/
def isSchemeByte (c : Nat) : Bool :=
  isAsciiAlpha c || isAsciiDigit c || decide (c = 43) || decide (c = 45) || decide (c = 46)

def asciiLower (c : Nat) : Nat := if 65 ≤ c ∧ c ≤ 90 then c + 32 else c

/-- WHATWG input preprocessing: strip leading/trailing C0-or-space,
remove tab/LF/CR everywhere. -/
def urlStrip (s : List Nat) : List Nat :=
  (((s.dropWhile (fun c => decide (c ≤ 32))).reverse.dropWhile
      (fun c => decide (c ≤ 32))).reverse).filter
    (fun c => !(decide (c = 9) || decide (c = 10) || decide (c = 13)))

/-- Split `scheme ':' rest`, lowercasing the scheme; `none` when the
input has no valid scheme prefix (a relative reference). -/
def splitScheme (s : List Nat) : Option (List Nat × List Nat) :=
  let pre := s.takeWhile isSchemeByte
  match s.drop pre.length with
  | 58 :: rest =>
    match pre with
    | p :: _ => if isAsciiAlpha p then some (pre.map asciiLower, rest) else none
    | [] => none
  | _ => none

/-- WHATWG forbidden host code points (ASCII part; `%` is permitted). -/
def forbiddenHostByte (c : Nat) : Bool :=
  decide (c = 0) || decide (c = 9) || decide (c = 10) || decide (c = 13) ||
  decide (c = 32) || decide (c = 35) || decide (c = 47) || decide (c = 58) ||
  decide (c = 60) || decide (c = 62) || decide (c = 63) || decide (c = 64) ||
  decide (c = 91) || decide (c = 92) || decide (c = 93) || decide (c = 94) ||
  decide (c = 124)

/-- Split at the last occurrence of `sep`, if any. -/
def splitAtLastByte (sep : Nat) (l : List Nat) : Option (List Nat × List Nat) :=
  if l.contains sep then
    let afterRev := l.reverse.takeWhile (fun c => c != sep)
    some (l.take (l.length - afterRev.length - 1), afterRev.reverse)
  else none

def digitsVal (l : List Nat) : Nat := l.foldl (fun acc c => acc * 10 + (c - 48)) 0

def natDigitsAux : Nat → Nat → List Nat
  | 0, _ => []
  | fuel + 1, n => if n < 10 then [48 + n] else natDigitsAux fuel (n / 10) ++ [48 + n % 10]

/-- Decimal digits of a natural number, as ASCII bytes. -/
def natDigits (n : Nat) : List Nat := natDigitsAux (n + 1) n

/-- Canonical port: dropped when empty or the scheme's default. -/
def normalizePort (scheme p : List Nat) : Option (List Nat) :=
  if p = [] then none
  else
    let v := digitsVal p
    if (scheme = jstr "http" ∧ v = 80) ∨ (scheme = jstr "https" ∧ v = 443) then none
    else some (natDigits v)

/-- Parsed absolute http/https URL. -/
structure UrlParts where
  scheme : List Nat
  host : List Nat
  port : Option (List Nat)
  pathSegs : List (List Nat)
  query : Option (List Nat)
  fragment : Option (List Nat)
deriving DecidableEq

/-- Path string (after its leading `/`) as a list of segments. -/
def pathToSegs : List Nat → List (List Nat)
  | [] => []
  | 47 :: r => splitOnByte 47 r
  | other => splitOnByte 47 other

/-- Remove `.` and `..` segments, with the usual trailing-slash behavior. -/
def removeDotSegs : List (List Nat) → List (List Nat) → List (List Nat)
  | acc, [] => acc.reverse
  | acc, seg :: rest =>
    if seg = [46] then
      if rest = [] then ([] :: acc).reverse else removeDotSegs acc rest
    else if seg = [46, 46] then
      if rest = [] then ([] :: acc.tail).reverse else removeDotSegs acc.tail rest
    else removeDotSegs (seg :: acc) rest

/-- Parse path, query and fragment out of the part after the authority. -/
def parseHttpTail (scheme host : List Nat) (port : Option (List Nat))
    (afterAuth : List Nat) : UrlParts :=
  let a2 := afterAuth.map (fun c => if c = 92 then 47 else c)
  let pathRaw := a2.takeWhile (fun c => !(decide (c = 63) || decide (c = 35)))
  let afterPath := a2.drop pathRaw.length
  let q := match afterPath with
    | 63 :: qf => some (qf.takeWhile (fun c => c != 35))
    | _ => none
  let f := match afterPath with
    | 63 :: qf =>
      (match qf.dropWhile (fun c => c != 35) with
       | 35 :: ff => some ff
       | _ => none)
    | 35 :: ff => some ff
    | _ => none
  UrlParts.mk scheme host port (removeDotSegs [] (pathToSegs pathRaw)) q f

/-- Parse the remainder after `http:`/`https:`: skip any run of slashes,
parse and validate the authority, then the path/query/fragment.
`none` models a thrown `TypeError`. -/
def parseHttpRest (scheme rest : List Nat) : Option UrlParts :=
  let rest1 := rest.dropWhile (fun c => decide (c = 47) || decide (c = 92))
  let authority := rest1.takeWhile
    (fun c => !(decide (c = 47) || decide (c = 92) || decide (c = 63) || decide (c = 35)))
  let afterAuth := rest1.drop authority.length
  let hostport := match splitAtLastByte 64 authority with
    | some (_, after) => after
    | none => authority
  let hp := match splitAtLastByte 58 hostport with
    | some (before, after) => (before, some after)
    | none => (hostport, none)
  if hp.1 = [] then none
  else if hp.1.any forbiddenHostByte then none
  else
    let host := hp.1.map asciiLower
    match hp.2 with
    | some p =>
      if p.all isAsciiDigit then
        if digitsVal p ≤ 65535 then
          some (parseHttpTail scheme host (normalizePort scheme p) afterAuth)
        else none
      else none
    | none => some (parseHttpTail scheme host none afterAuth)

/-- Path percent-encode set (C0, space, `"`, `<`, `>`, backtick, `#`,
`?`, curly braces, DEL and above). -/
def inPathEncSet (c : Nat) : Bool :=
  decide (c < 33) || decide (c = 34) || decide (c = 35) || decide (c = 60) ||
  decide (c = 62) || decide (c = 63) || decide (c = 96) || decide (c = 123) ||
  decide (c = 125) || decide (127 ≤ c)

/-- Query percent-encode set for special schemes. -/
def inQueryEncSet (c : Nat) : Bool :=
  decide (c < 33) || decide (c = 34) || decide (c = 35) || decide (c = 60) ||
  decide (c = 62) || decide (c = 39) || decide (127 ≤ c)

/-- Fragment percent-encode set. -/
def inFragEncSet (c : Nat) : Bool :=
  decide (c < 33) || decide (c = 34) || decide (c = 60) || decide (c = 62) ||
  decide (c = 96) || decide (127 ≤ c)

def pctHexDigit (n : Nat) : Nat := if n < 10 then 48 + n else 55 + n

/-- `%XY` escape of a byte (uppercase hex, as WHATWG serializes). -/
def pctEnc (b : Nat) : List Nat := [37, pctHexDigit (b / 16), pctHexDigit (b % 16)]

/-- Percent-encode every byte matched by the set `f`. -/
def encodeWith (f : Nat → Bool) (l : List Nat) : List Nat :=
  l.foldr (fun c acc => (if f c then pctEnc c else [c]) ++ acc) []

/-- `URL.href`: serialize the parsed URL. -/
def serializeUrl (u : UrlParts) : List Nat :=
  u.scheme ++ jstr "://" ++ u.host ++
  (match u.port with | some p => 58 :: p | none => []) ++
  (47 :: joinWith [47] (u.pathSegs.map (encodeWith inPathEncSet))) ++
  (match u.query with | some q => 63 :: encodeWith inQueryEncSet q | none => []) ++
  (match u.fragment with | some f => 35 :: encodeWith inFragEncSet f | none => [])

/-- `new URL(s)` for an absolute http/https string. -/
def parseAbsHttp (s : List Nat) : Option UrlParts :=
  match splitScheme (urlStrip s) with
  | some (sch, rest) =>
    if sch = jstr "http" ∨ sch = jstr "https" then parseHttpRest sch rest else none
  | none => none

/-- `isValidUrl` (`src/custom-proxy/index.js` lines 26-33):
`new URL(string)` must succeed and its protocol be `http:` or `https:`.
A non-http(s) scheme returns `false` whether or not the URL parses, and
a schemeless string throws, also `false` — so only the http/https parse
needs to be decided. -/
def isValidUrl (s : List Nat) : Bool :=
  match splitScheme (urlStrip s) with
  | some (sch, rest) =>
    if sch = jstr "http" ∨ sch = jstr "https" then (parseHttpRest sch rest).isSome
    else false
  | none => false

/-- `new URL(s).protocol` (scheme with trailing colon), when `s` parses. -/
def urlProtocol (s : List Nat) : Option (List Nat) :=
  match splitScheme (urlStrip s) with
  | some (sch, rest) =>
    if sch = jstr "http" ∨ sch = jstr "https" then
      if (parseHttpRest sch rest).isSome then some (sch ++ [58]) else none
    else some (sch ++ [58])
  | none => none

/-- `new URL(value, base).href`: absolute values serialize on their own,
relative references are resolved against the base. `none` models a
thrown `TypeError`. -/
def jsResolve (value base : List Nat) : Option (List Nat) :=
  let v := urlStrip value
  match splitScheme v with
  | some (sch, rest) =>
    if sch = jstr "http" ∨ sch = jstr "https" then
      (parseHttpRest sch rest).map serializeUrl
    else some v
  | none =>
    match parseAbsHttp base with
    | none => none
    | some b =>
      if startsWithStr (jstr "//") v then
        (parseHttpRest b.scheme v).map serializeUrl
      else
        let pathPart := v.takeWhile (fun c => !(decide (c = 63) || decide (c = 35)))
        let afterPath := v.drop pathPart.length
        let q := match afterPath with
          | 63 :: qf => some (qf.takeWhile (fun c => c != 35))
          | _ => none
        let f := match afterPath with
          | 63 :: qf =>
            (match qf.dropWhile (fun c => c != 35) with
             | 35 :: ff => some ff
             | _ => none)
          | 35 :: ff => some ff
          | _ => none
        if v = [] then
          some (serializeUrl (UrlParts.mk b.scheme b.host b.port b.pathSegs b.query none))
        else
          match pathPart with
          | [] =>
            match afterPath with
            | 63 :: _ =>
              some (serializeUrl (UrlParts.mk b.scheme b.host b.port b.pathSegs q f))
            | 35 :: _ =>
              some (serializeUrl (UrlParts.mk b.scheme b.host b.port b.pathSegs b.query f))
            | _ =>
              some (serializeUrl (UrlParts.mk b.scheme b.host b.port b.pathSegs b.query none))
          | 47 :: r =>
            some (serializeUrl
              (UrlParts.mk b.scheme b.host b.port (removeDotSegs [] (splitOnByte 47 r)) q f))
          | _ =>
            let merged := b.pathSegs.dropLast ++ splitOnByte 47 pathPart
            some (serializeUrl
              (UrlParts.mk b.scheme b.host b.port (removeDotSegs [] merged) q f))

/-! ## Response cache (`src/custom-proxy/index.js` lines 20-23, 53-60)

`cache` is a JS `Map`, embedded as an association list in insertion
order: `set` of a present key updates in place, `set` of a fresh key
appends, `Array.from(cache.keys())[0]` is the head's key. -/

structure CacheEntry where
  targetUrl : List Nat
  body : List Nat
  timestamp : Nat
deriving DecidableEq

abbrev Cache := List (List Nat × CacheEntry)

def MAX_CACHE_SIZE : Nat := 50

def CACHE_TTL : Nat := 2 * 60 * 1000

/-- `Map.get`: value of the (unique) entry with key `k`. -/
def cacheGet : Cache → List Nat → Option CacheEntry
  | [], _ => none
  | p :: rest, k => if p.1 = k then some p.2 else cacheGet rest k

/-- `Map.has`. -/
def cacheHas (c : Cache) (k : List Nat) : Bool := (cacheGet c k).isSome

/-- `Map.set`: update in place when the key is present (its position in
insertion order is kept), append otherwise. -/
def cacheSet : Cache → List Nat → CacheEntry → Cache
  | [], k, v => [(k, v)]
  | p :: rest, k, v => if p.1 = k then (k, v) :: rest else p :: cacheSet rest k v

/-- `Map.delete`: remove the entry with key `k`. -/
def cacheDelete : Cache → List Nat → Cache
  | [], _ => []
  | p :: rest, k => if p.1 = k then cacheDelete rest k else p :: cacheDelete rest k

/-- `manageCacheSize` (lines 54-60): when `cache.size > MAX_CACHE_SIZE`,
delete the first key in insertion order (on an empty map,
`keys()[0]` is `undefined` and the delete is a no-op). -/
def manageCacheSize (c : Cache) : Cache :=
  if MAX_CACHE_SIZE < c.length then
    match c with
    | [] => c
    | _ :: rest => rest
  else c

/-! ## `fetchWithRetry` (lines 63-89)

The nondeterminism of the network is captured by an oracle
`b : Nat → Except FetchErr UpstreamResponse` giving the outcome of the
`i`-th attempt; an `AbortController` timeout surfaces as a thrown error,
i.e. `Except.error`.  The result carries the response or final error,
the number of attempts performed, and the list of inter-attempt delays
in milliseconds (`await setTimeout(1000)` before each retry). -/

structure UpstreamResponse where
  status : Nat
  statusText : List Nat
  contentType : List Nat
  body : List Nat
deriving DecidableEq

structure FetchErr where
  msg : List Nat
deriving DecidableEq

/-- `Response.ok`: status in the inclusive range 200-299. -/
def respOk (r : UpstreamResponse) : Bool := decide (200 ≤ r.status ∧ r.status ≤ 299)

def fetchWithRetry (b : Nat → Except FetchErr UpstreamResponse) :
    Nat → Nat → Except FetchErr UpstreamResponse × Nat × List Nat
  | attempt, retries =>
    match b attempt with
    | .ok r => (.ok r, 1, [])
    | .error e =>
      match retries with
      | 0 => (.error e, 1, [])
      | rr + 1 =>
        let rec_ := fetchWithRetry b (attempt + 1) rr
        (rec_.1, rec_.2.1 + 1, 1000 :: rec_.2.2)

/-! ## `rewriteResourceUrls` (lines 92-214)

A document is embedded as a list of elements, each a tag name with an
attribute list; `querySelectorAll('*')` visits them in order.  The four
passes run in source order: the generic attribute pass, the srcset
pass, the inline-style pass and the meta-content pass. -/

structure Element where
  tag : List Nat
  attrs : List (List Nat × List Nat)
deriving DecidableEq

def getAttr (e : Element) (name : List Nat) : Option (List Nat) :=
  (e.attrs.find? (fun p => p.1 == name)).map (fun p => p.2)

def setAttr (e : Element) (name value : List Nat) : Element :=
  if e.attrs.any (fun p => p.1 == name) then
    Element.mk e.tag (e.attrs.map (fun p => if p.1 == name then (name, value) else p))
  else Element.mk e.tag (e.attrs ++ [(name, value)])

/-- The fixed list of URL-bearing attributes of the generic pass
(lines 94-98), in source order — note that it includes `srcset`. -/
def urlAttributes : List (List Nat) :=
  [jstr "href", jstr "src", jstr "srcset", jstr "data-src", jstr "data-href",
   jstr "action", jstr "poster", jstr "background", jstr "cite",
   jstr "formaction", jstr "icon", jstr "manifest", jstr "archive",
   jstr "code", jstr "codebase", jstr "usemap"]

/-- The common absolutization step (lines 117-122 and twins): a
scheme-relative `//...` value gets the target's protocol prepended by
string concatenation, anything else goes through `new URL(value,
targetUrl).href`; `none` models the caught exception. -/
def resolveForRewrite (targetUrl value : List Nat) : Option (List Nat) :=
  if startsWithStr (jstr "//") value then
    (urlProtocol targetUrl).map (fun p => p ++ value)
  else jsResolve value targetUrl

/-- One attribute of the generic pass (lines 104-134): skip empty values
and `data:`/`javascript:`/`mailto:`/`blob:`/fragment values, absolutize,
and when the result starts with `http`, replace the value with
`proxyBaseUrl + "/go?url=" + encodeUrl(absoluteUrl)`; resolution
failures leave the value unmodified. -/
def rewriteAttrValue (targetUrl proxyBaseUrl value : List Nat) : List Nat :=
  if value ≠ [] ∧
     ¬ startsWithStr (jstr "data:") value ∧
     ¬ startsWithStr (jstr "javascript:") value ∧
     ¬ startsWithStr (jstr "mailto:") value ∧
     ¬ startsWithStr (jstr "blob:") value ∧
     ¬ startsWithStr (jstr "#") value then
    match resolveForRewrite targetUrl value with
    | some abs =>
      if startsWithStr (jstr "http") abs then
        proxyBaseUrl ++ jstr "/go?url=" ++ encodeUrl abs
      else value
    | none => value
  else value

/-- Generic pass over one element: fold the attribute list in source
order, rewriting each attribute the element carries. -/
def rewriteElementGeneric (targetUrl proxyBaseUrl : List Nat) (e : Element) : Element :=
  urlAttributes.foldl
    (fun el attr =>
      match getAttr el attr with
      | some value => setAttr el attr (rewriteAttrValue targetUrl proxyBaseUrl value)
      | none => el)
    e

/-- One comma-separated srcset candidate (lines 141-160): trim, split on
whitespace into URL and descriptor, absolutize the URL, and rebuild
`"{proxy}/go?url={token} {descriptor}"` trimmed; non-qualifying or
failing candidates are returned as the original part. -/
def rewriteSrcsetPart (targetUrl proxyBaseUrl part : List Nat) : List Nat :=
  let fields := splitWsRuns (jsTrim part)
  let url := fields.headD []
  let descriptor := (fields.drop 1).headD []
  if url ≠ [] ∧
     ¬ startsWithStr (jstr "data:") url ∧
     ¬ startsWithStr (jstr "javascript:") url then
    match resolveForRewrite targetUrl url with
    | some abs =>
      if startsWithStr (jstr "http") abs then
        jsTrim (proxyBaseUrl ++ jstr "/go?url=" ++ encodeUrl abs ++ [32] ++ descriptor)
      else part
    | none => part
  else part

/-- srcset pass (lines 138-165): split the attribute on commas, rewrite
each candidate, rejoin with `", "`. -/
def rewriteSrcsetPass (targetUrl proxyBaseUrl : List Nat) (e : Element) : Element :=
  match getAttr e (jstr "srcset") with
  | some srcset =>
    if srcset ≠ [] then
      setAttr e (jstr "srcset")
        (joinWith (jstr ", ")
          ((splitOnByte 44 srcset).map (rewriteSrcsetPart targetUrl proxyBaseUrl)))
    else e
  | none => e

/-- One `url(...)` occurrence inside an inline style (lines 170-189):
the regex `/url\(['"]?(.*?)['"]?\)/gi` captures up to the first `)`,
with one optional quote stripped on each side. -/
def rewriteStyleUrl (targetUrl proxyBaseUrl url : List Nat) : Option (List Nat) :=
  if url ≠ [] ∧
     ¬ startsWithStr (jstr "data:") url ∧
     ¬ startsWithStr (jstr "javascript:") url then
    match resolveForRewrite targetUrl url with
    | some abs =>
      if startsWithStr (jstr "http") abs then
        some (jstr "url('" ++ proxyBaseUrl ++ jstr "/go?url=" ++ encodeUrl abs ++ jstr "')")
      else none
    | none => none
  else none

/-- Lowercase prefix test for the case-insensitive `url(` match. -/
def matchesUrlOpen (l : List Nat) : Bool :=
  startsWithStr (jstr "url(") (l.map asciiLower)

/-- Strip one optional quote from each end of the captured group. -/
def stripOptQuotes (l : List Nat) : List Nat :=
  let l1 := match l with
    | c :: r => if c = 39 ∨ c = 34 then r else l
    | [] => l
  match l1.reverse with
  | c :: r => if c = 39 ∨ c = 34 then r.reverse else l1
  | [] => l1

/-- Scan an inline style value for `url(...)` occurrences, replacing
each qualifying one (fuelled scan; `fuel ≥ length` suffices). -/
def rewriteStyleScan (targetUrl proxyBaseUrl : List Nat) : Nat → List Nat → List Nat
  | 0, l => l
  | _ + 1, [] => []
  | fuel + 1, c :: rest =>
    if matchesUrlOpen (c :: rest) then
      let afterOpen := (c :: rest).drop 4
      let inner := afterOpen.takeWhile (fun x => x != 41)
      match afterOpen.drop inner.length with
      | 41 :: tail =>
        let url := stripOptQuotes inner
        (match rewriteStyleUrl targetUrl proxyBaseUrl url with
         | some repl => repl
         | none => (c :: rest).take (5 + inner.length)) ++
        rewriteStyleScan targetUrl proxyBaseUrl fuel tail
      | _ => c :: rewriteStyleScan targetUrl proxyBaseUrl fuel rest
    else c :: rewriteStyleScan targetUrl proxyBaseUrl fuel rest

/-- Inline-style pass (lines 168-191). -/
def rewriteStylePass (targetUrl proxyBaseUrl : List Nat) (e : Element) : Element :=
  match getAttr e (jstr "style") with
  | some style =>
    setAttr e (jstr "style")
      (rewriteStyleScan targetUrl proxyBaseUrl style.length style)
  | none => e

/-- Meta-content pass (lines 194-213): `meta[content]` elements whose
content starts with `http://` or `https://` get the content absolutized
and proxied. -/
def rewriteMetaPass (targetUrl proxyBaseUrl : List Nat) (e : Element) : Element :=
  if e.tag = jstr "meta" then
    match getAttr e (jstr "content") with
    | some content =>
      if startsWithStr (jstr "http://") content ∨
         startsWithStr (jstr "https://") content then
        match resolveForRewrite targetUrl content with
        | some abs =>
          if startsWithStr (jstr "http") abs then
            setAttr e (jstr "content")
              (proxyBaseUrl ++ jstr "/go?url=" ++ encodeUrl abs)
          else e
        | none => e
      else e
    | none => e
  else e

/-- `rewriteResourceUrls(document, targetUrl, proxyBaseUrl)`
(lines 92-214): the four passes, each over every element, in source
order. -/
def rewriteResourceUrls (doc : List Element) (targetUrl proxyBaseUrl : List Nat) :
    List Element :=
  (((doc.map (rewriteElementGeneric targetUrl proxyBaseUrl)).map
      (rewriteSrcsetPass targetUrl proxyBaseUrl)).map
      (rewriteStylePass targetUrl proxyBaseUrl)).map
    (rewriteMetaPass targetUrl proxyBaseUrl)

/-- `PROXY_BASE_URL` default (line 13). -/
def PROXY_BASE_URL : List Nat := jstr "https://nothingeverhappens.onrender.com"

/-! ## Route handlers (`app.get('/go')` lines 227-445,
`app.post('/go')` lines 448-579)

The HTML pipeline between fetch and response — JSDOM parse, CSP meta
removal, `<base>` injection, `rewriteResourceUrls`, script replacement,
client-patch injection, `dom.serialize()` — is abstracted as a
`render : targetUrl → body → body` parameter: the cache/control-flow
claims below hold for every such transformer, and the rewriter itself is
verified separately on the element model.  `Date.now()` is the `now`
parameter. -/

structure GetResult where
  status : Nat
  body : List Nat
  cache : Cache
  attempts : Nat
  fromCache : Bool
deriving DecidableEq

/-- The fetch-and-respond phase of `app.get('/go')` after decoding,
validation and cache lookup (lines 260-444), acting on the cache state
`c1` left by the lookup: fetch with retry (500 when all attempts
throw), forward non-2xx upstream statuses, pass non-HTML bodies through
uncached, and rewrite + cache HTML bodies (`manageCacheSize` before
`cache.set`). -/
def appGetGoFetch (render : List Nat → List Nat → List Nat)
    (b : Nat → Except FetchErr UpstreamResponse)
    (targetUrl cacheKey : List Nat) (now : Nat) (c1 : Cache) : GetResult :=
  let fetched := fetchWithRetry b 0 2
  match fetched.1 with
  | .error _ => GetResult.mk 500 (jstr "Proxy error") c1 fetched.2.1 false
  | .ok r =>
    if ¬ respOk r then
      GetResult.mk r.status (jstr "Upstream error") c1 fetched.2.1 false
    else if ¬ (containsSub (jstr "text/html") r.contentType ∨
               containsSub (jstr "application/xhtml+xml") r.contentType) then
      GetResult.mk 200 r.body c1 fetched.2.1 false
    else
      let responseHtml := render targetUrl r.body
      let c2 := cacheSet (manageCacheSize c1) cacheKey
        (CacheEntry.mk targetUrl responseHtml now)
      GetResult.mk 200 responseHtml c2 fetched.2.1 false

/-- `app.get('/go')` (lines 227-445): decode and validate the `url`
query parameter (400 on missing/empty, malformed, or non-http(s) —
before the cache key even exists), serve a fresh cache hit, lazily
delete a stale one, then run the fetch phase; the cache key is
`"get:" + encoded`. -/
def appGetGo (render : List Nat → List Nat → List Nat)
    (b : Nat → Except FetchErr UpstreamResponse)
    (encQ : Option (List Nat)) (now : Nat) (cache : Cache) : GetResult :=
  match encQ with
  | none => GetResult.mk 400 (jstr "URL parameter is required") cache 0 false
  | some enc =>
    if enc = [] then GetResult.mk 400 (jstr "URL parameter is required") cache 0 false
    else
      match decodeUrl enc with
      | none => GetResult.mk 400 (jstr "Malformed URL") cache 0 false
      | some targetUrl =>
        if ¬ isValidUrl targetUrl then
          GetResult.mk 400 (jstr "Invalid target URL") cache 0 false
        else
          let cacheKey := jstr "get:" ++ enc
          match cacheGet cache cacheKey with
          | some cached =>
            if now - cached.timestamp < CACHE_TTL then
              GetResult.mk 200 cached.body cache 0 true
            else
              appGetGoFetch render b targetUrl cacheKey now (cacheDelete cache cacheKey)
          | none => appGetGoFetch render b targetUrl cacheKey now cache

structure PostResult where
  status : Nat
  body : List Nat
  cache : Cache
  attempts : Nat
deriving DecidableEq

/-- `app.post('/go')`: same decode/validate gate, then an upstream POST
with retry; HTML responses are rewritten, everything else streamed
through.  The handler never references the cache: it is threaded
through unchanged on every path. -/
def appPostGo (render : List Nat → List Nat → List Nat)
    (b : Nat → Except FetchErr UpstreamResponse)
    (encQ : Option (List Nat)) (reqBody : List Nat) (cache : Cache) : PostResult :=
  match encQ with
  | none => PostResult.mk 400 (jstr "URL parameter is required") cache 0
  | some enc =>
    if enc = [] then PostResult.mk 400 (jstr "URL parameter is required") cache 0
    else
      match decodeUrl enc with
      | none => PostResult.mk 400 (jstr "Malformed URL") cache 0
      | some targetUrl =>
        if ¬ isValidUrl targetUrl then
          PostResult.mk 400 (jstr "Invalid target URL") cache 0
        else
          let fetched := fetchWithRetry b 0 2
          match fetched.1 with
          | .error _ => PostResult.mk 500 (jstr "Proxy error") cache fetched.2.1
          | .ok r =>
            if ¬ (containsSub (jstr "text/html") r.contentType ∨
                  containsSub (jstr "application/xhtml+xml") r.contentType) then
              PostResult.mk 200 r.body cache fetched.2.1
            else PostResult.mk 200 (render targetUrl r.body) cache fetched.2.1

/-- One observable mutation of the shared cache by a request handler
(`GET /go`, `POST /go`) or by `POST /clear-cache` (lines 870-878). -/
inductive CacheStep : Cache → Cache → Prop
  | get (render : List Nat → List Nat → List Nat)
      (b : Nat → Except FetchErr UpstreamResponse)
      (encQ : Option (List Nat)) (now : Nat) (c : Cache) :
      CacheStep c (appGetGo render b encQ now c).cache
  | post (render : List Nat → List Nat → List Nat)
      (b : Nat → Except FetchErr UpstreamResponse)
      (encQ : Option (List Nat)) (reqBody : List Nat) (c : Cache) :
      CacheStep c (appPostGo render b encQ reqBody c).cache
  | clear (c : Cache) : CacheStep c []

/-- Cache states reachable from the initial empty map. -/
def CacheReachable (c : Cache) : Prop := Relation.ReflTransGen CacheStep [] c

/-! ## Concrete data for the cache-trace evaluation -/

/-- An upstream that always answers 200 with an HTML body. -/
def okHtmlOracle : Nat → Except FetchErr UpstreamResponse :=
  fun _ => .ok (UpstreamResponse.mk 200 (jstr "OK") (jstr "text/html") (jstr "<html></html>"))

/-- The `i`-th of a family of distinct absolute http URLs. -/
def distinctUrl (i : Nat) : List Nat := jstr "http://h/" ++ natDigits i

/-- Cache state after `k` successive `GET /go` requests for
`distinctUrl 0 .. distinctUrl (k-1)`, starting from the empty cache. -/
def insertTrace (k : Nat) : Cache :=
  (List.range k).foldl
    (fun c i =>
      (appGetGo (fun _ bdy => bdy) okHtmlOracle (some (encodeUrl (distinctUrl i))) 0 c).cache)
    []

/-- An upstream that always throws (times out / refuses). -/
def failOracle : Nat → Except FetchErr UpstreamResponse :=
  fun _ => .error (FetchErr.mk (jstr "ECONNREFUSED"))

/-- An upstream that throws on the first two attempts and succeeds on
the third. -/
def flakyOracle : Nat → Except FetchErr UpstreamResponse :=
  fun i => if i < 2 then .error (FetchErr.mk (jstr "ETIMEDOUT")) else okHtmlOracle i

/-- An upstream that answers 404 immediately. -/
def notFoundOracle : Nat → Except FetchErr UpstreamResponse :=
  fun _ => .ok (UpstreamResponse.mk 404 (jstr "Not Found") (jstr "text/html") (jstr "gone"))

/-! ## Theorems -/

theorem b64CharVal_b64Char : ∀ n, n < 64 → b64CharVal (b64Char n) = some n := by decide

theorem b64Char_ne_pad : ∀ n, n < 64 → ((b64Char n != 61) = true) := by decide

/-- Extracting sextets walks over one encoded alphabet character. -/
theorem extractSextets_cons (n : Nat) (hn : n < 64) (l : List Nat) :
    List.filterMap b64CharVal (List.takeWhile (fun c => c != 61) (b64Char n :: l))
    = n :: List.filterMap b64CharVal (List.takeWhile (fun c => c != 61) l) := by
  have hp : (fun c => c != 61) (b64Char n) = true := b64Char_ne_pad n hn
  rw [@List.takeWhile_cons_of_pos Nat (fun c => c != 61) (b64Char n) l hp]
  rw [@List.filterMap_cons_some Nat Nat b64CharVal (b64Char n) _ n (b64CharVal_b64Char n hn)]

/-- Extracting sextets stops at the `=` padding character. -/
theorem extractSextets_pad (l : List Nat) :
    List.filterMap b64CharVal (List.takeWhile (fun c => c != 61) (61 :: l)) = [] := by
  have hp : ¬ ((fun c => c != 61) (61 : Nat) = true) := by decide
  rw [@List.takeWhile_cons_of_neg Nat (fun c => c != 61) 61 l hp, List.filterMap_nil]

theorem decodeB64_encodeB64 (bs : List Nat) (h : ∀ x ∈ bs, x < 256) :
    decodeB64 (encodeB64 bs) = bs := by
  induction bs using encodeB64.induct with
  | case1 a b c rest ih =>
    have ha : a < 256 := h a (by simp)
    have hb : b < 256 := h b (by simp)
    have hc : c < 256 := h c (by simp)
    have h1 : a / 4 < 64 := by omega
    have h2 : a % 4 * 16 + b / 16 < 64 := by omega
    have h3 : b % 16 * 4 + c / 64 < 64 := by omega
    have h4 : c % 64 < 64 := by omega
    have ihr : decodeB64 (encodeB64 rest) = rest := ih (fun x hx => h x (by simp [hx]))
    unfold decodeB64 at ihr ⊢
    rw [encodeB64, extractSextets_cons _ h1, extractSextets_cons _ h2,
        extractSextets_cons _ h3, extractSextets_cons _ h4, decodeSextets, ihr]
    have e1 : a / 4 * 4 + (a % 4 * 16 + b / 16) / 16 = a := by omega
    have e2 : (a % 4 * 16 + b / 16) % 16 * 16 + (b % 16 * 4 + c / 64) / 4 = b := by omega
    have e3 : (b % 16 * 4 + c / 64) % 4 * 64 + c % 64 = c := by omega
    rw [e1, e2, e3]
  | case2 a =>
    have ha : a < 256 := h a (by simp)
    have h1 : a / 4 < 64 := by omega
    have h2 : a % 4 * 16 < 64 := by omega
    unfold decodeB64
    rw [encodeB64, extractSextets_cons _ h1, extractSextets_cons _ h2, extractSextets_pad]
    show decodeSextets [a / 4, a % 4 * 16] = [a]
    rw [decodeSextets]
    have e1 : a / 4 * 4 + a % 4 * 16 / 16 = a := by omega
    rw [e1]
  | case3 a b =>
    have ha : a < 256 := h a (by simp)
    have hb : b < 256 := h b (by simp)
    have h1 : a / 4 < 64 := by omega
    have h2 : a % 4 * 16 + b / 16 < 64 := by omega
    have h3 : b % 16 * 4 < 64 := by omega
    unfold decodeB64
    rw [encodeB64, extractSextets_cons _ h1, extractSextets_cons _ h2,
        extractSextets_cons _ h3, extractSextets_pad]
    show decodeSextets [a / 4, a % 4 * 16 + b / 16, b % 16 * 4] = [a, b]
    rw [decodeSextets]
    have e1 : a / 4 * 4 + (a % 4 * 16 + b / 16) / 16 = a := by omega
    have e2 : (a % 4 * 16 + b / 16) % 16 * 16 + b % 16 * 4 / 4 = b := by omega
    rw [e1, e2]
  | case4 => rfl

theorem utf8Step_spec : ∀ (l seq r : List Nat), utf8Step l = some (seq, r) →
    seq ++ r = l ∧ r.length < l.length := by
  intro l seq r h
  match l with
  | [] => exact absurd h (by simp [utf8Step])
  | b :: rest =>
    simp only [utf8Step] at h
    split_ifs at h
    · simp only [Option.some.injEq, Prod.mk.injEq] at h
      obtain ⟨h1, h2⟩ := h
      subst h1; subst h2
      exact ⟨rfl, by simp only [List.length_cons]; omega⟩
    · cases rest with
      | nil => exact absurd h (by simp [utf8Step2])
      | cons c1 r2 =>
        simp only [utf8Step2] at h
        split_ifs at h
        simp only [Option.some.injEq, Prod.mk.injEq] at h
        obtain ⟨h1, h2⟩ := h
        subst h1; subst h2
        exact ⟨rfl, by simp only [List.length_cons]; omega⟩
    · match rest with
      | [] => exact absurd h (by simp [utf8Step3])
      | [c1] => exact absurd h (by simp [utf8Step3])
      | c1 :: c2 :: r2 =>
        simp only [utf8Step3] at h
        split_ifs at h
        simp only [Option.some.injEq, Prod.mk.injEq] at h
        obtain ⟨h1, h2⟩ := h
        subst h1; subst h2
        exact ⟨rfl, by simp only [List.length_cons]; omega⟩
    · match rest with
      | [] => exact absurd h (by simp [utf8Step4])
      | [c1] => exact absurd h (by simp [utf8Step4])
      | [c1, c2] => exact absurd h (by simp [utf8Step4])
      | c1 :: c2 :: c3 :: r3 =>
        simp only [utf8Step4] at h
        split_ifs at h
        simp only [Option.some.injEq, Prod.mk.injEq] at h
        obtain ⟨h1, h2⟩ := h
        subst h1; subst h2
        exact ⟨rfl, by simp only [List.length_cons]; omega⟩

theorem utf8SanitizeAux_of_valid (fuel : Nat) : ∀ (fuel2 : Nat) (l : List Nat),
    l.length ≤ fuel → l.length ≤ fuel2 →
    validUtf8Aux fuel2 l = true → utf8SanitizeAux fuel l = l := by
  induction fuel with
  | zero =>
    intro fuel2 l hlen _ _
    match l with
    | [] => rfl
  | succ n ih =>
    intro fuel2 l hlen hlen2 hval
    match l with
    | [] => rfl
    | b :: rest =>
      match fuel2 with
      | 0 => exact absurd hlen2 (by simp)
      | f2 + 1 =>
        unfold validUtf8Aux at hval
        unfold utf8SanitizeAux
        rcases hstep : utf8Step (b :: rest) with _ | ⟨seq, r⟩
        · rw [hstep] at hval
          simp at hval
        · have hspec := utf8Step_spec _ _ _ hstep
          simp only [List.length_cons] at hspec hlen hlen2
          rw [hstep] at hval
          have hrec : utf8SanitizeAux n r = r :=
            ih f2 r (by omega) (by omega) (by simpa using hval)
          show seq ++ utf8SanitizeAux n r = b :: rest
          rw [hrec, hspec.1]

/-- On well-formed UTF-8 input, `Buffer.from(bytes).toString('utf-8')`
is the identity. -/
theorem utf8Sanitize_of_valid (l : List Nat) (h : isValidUtf8 l = true) :
    utf8Sanitize l = l :=
  utf8SanitizeAux_of_valid l.length l.length l (by rfl) (by rfl) h

theorem percentDecodeAux_no_pct (fuel : Nat) : ∀ (fuel2 : Nat) (l : List Nat),
    l.length ≤ fuel2 → fuel ≤ fuel2 → l.length ≤ fuel →
    (∀ c ∈ l, c ≠ 37) → percentDecodeAux fuel l = some l := by
  induction fuel with
  | zero =>
    intro fuel2 l _ _ hlen _
    match l with
    | [] => rfl
  | succ n ih =>
    intro fuel2 l _ _ hlen hpct
    match l with
    | [] => rfl
    | c :: rest =>
      have hc : c ≠ 37 := hpct c (by simp)
      simp only [percentDecodeAux, if_neg hc]
      have hrec : percentDecodeAux n rest = some rest :=
        ih (n + 1) rest (by simp at hlen; omega) (by omega)
          (by simp at hlen; omega) (fun x hx => hpct x (by simp [hx]))
      rw [hrec, Option.map_some']

/-- On a byte sequence containing no `%`, `decodeURIComponent` is the
identity. -/
theorem decodeURIComponentBytes_no_pct (l : List Nat) (h : ∀ c ∈ l, c ≠ 37) :
    decodeURIComponentBytes l = some l :=
  percentDecodeAux_no_pct l.length l.length l (by rfl) (by rfl) (by rfl) h

theorem cacheGet_delete (c : Cache) (k : List Nat) :
    cacheGet (cacheDelete c k) k = none := by
  induction c with
  | nil => rfl
  | cons p rest ih =>
    by_cases h : p.1 = k
    · simpa [cacheDelete, h] using ih
    · simpa [cacheDelete, cacheGet, h] using ih

theorem cacheGet_set (c : Cache) (k : List Nat) (v : CacheEntry) :
    cacheGet (cacheSet c k v) k = some v := by
  induction c with
  | nil => simp [cacheSet, cacheGet]
  | cons p rest ih =>
    by_cases h : p.1 = k
    · simp [cacheSet, cacheGet, h]
    · simpa [cacheSet, cacheGet, h] using ih

theorem length_cacheSet (c : Cache) (k : List Nat) (v : CacheEntry) :
    (cacheSet c k v).length = if cacheHas c k then c.length else c.length + 1 := by
  induction c with
  | nil => simp [cacheSet, cacheHas, cacheGet]
  | cons p rest ih =>
    by_cases h : p.1 = k
    · simp [cacheSet, cacheHas, cacheGet, h]
    · simp only [cacheSet, cacheHas, cacheGet, h, if_neg h, List.length_cons, ih]
      by_cases h2 : (cacheGet rest k).isSome = true <;> simp [cacheHas, h2] at ih ⊢ <;> omega

theorem length_cacheDelete_le (c : Cache) (k : List Nat) :
    (cacheDelete c k).length ≤ c.length := by
  induction c with
  | nil => simp [cacheDelete]
  | cons p rest ih =>
    by_cases h : p.1 = k
    · simp only [cacheDelete, if_pos h, List.length_cons]
      omega
    · simp only [cacheDelete, if_neg h, List.length_cons]
      omega

theorem length_manageCacheSize (c : Cache) :
    (manageCacheSize c).length =
      if MAX_CACHE_SIZE < c.length then c.length - 1 else c.length := by
  unfold manageCacheSize
  split
  · match c with
    | [] => simp_all
    | _ :: rest => simp
  · rfl

theorem fetchWithRetry_attempts_pos (b : Nat → Except FetchErr UpstreamResponse)
    (a rr : Nat) : 1 ≤ (fetchWithRetry b a rr).2.1 := by
  unfold fetchWithRetry
  cases b a with
  | ok r => simp
  | error e =>
    cases rr with
    | zero => simp
    | succ n => simp

theorem appGetGoFetch_attempts (render : List Nat → List Nat → List Nat)
    (b : Nat → Except FetchErr UpstreamResponse)
    (targetUrl cacheKey : List Nat) (now : Nat) (c1 : Cache) :
    (appGetGoFetch render b targetUrl cacheKey now c1).attempts =
      (fetchWithRetry b 0 2).2.1 := by
  simp only [appGetGoFetch]
  split <;> (try split) <;> (try split) <;> rfl

theorem appGetGoFetch_fromCache (render : List Nat → List Nat → List Nat)
    (b : Nat → Except FetchErr UpstreamResponse)
    (targetUrl cacheKey : List Nat) (now : Nat) (c1 : Cache) :
    (appGetGoFetch render b targetUrl cacheKey now c1).fromCache = false := by
  simp only [appGetGoFetch]
  split <;> (try split) <;> (try split) <;> rfl

theorem appGetGoFetch_cache_cases (render : List Nat → List Nat → List Nat)
    (b : Nat → Except FetchErr UpstreamResponse)
    (targetUrl cacheKey : List Nat) (now : Nat) (c1 : Cache) :
    (appGetGoFetch render b targetUrl cacheKey now c1).cache = c1 ∨
    ∃ bdy, (appGetGoFetch render b targetUrl cacheKey now c1).cache =
      cacheSet (manageCacheSize c1) cacheKey (CacheEntry.mk targetUrl bdy now) := by
  simp only [appGetGoFetch]
  split
  · exact Or.inl rfl
  · split
    · exact Or.inl rfl
    · split
      · exact Or.inl rfl
      · exact Or.inr ⟨_, rfl⟩

theorem appGetGoFetch_cache_length (render : List Nat → List Nat → List Nat)
    (b : Nat → Except FetchErr UpstreamResponse)
    (targetUrl cacheKey : List Nat) (now : Nat) (c1 : Cache)
    (h : c1.length ≤ MAX_CACHE_SIZE + 1) :
    (appGetGoFetch render b targetUrl cacheKey now c1).cache.length ≤ MAX_CACHE_SIZE + 1 := by
  rcases appGetGoFetch_cache_cases render b targetUrl cacheKey now c1 with hc | ⟨bdy, hc⟩ <;>
    rw [hc]
  · exact h
  · rw [length_cacheSet, length_manageCacheSize]
    split <;> split <;> omega

theorem appGetGo_cache_length (render : List Nat → List Nat → List Nat)
    (b : Nat → Except FetchErr UpstreamResponse)
    (encQ : Option (List Nat)) (now : Nat) (cache : Cache)
    (h : cache.length ≤ MAX_CACHE_SIZE + 1) :
    (appGetGo render b encQ now cache).cache.length ≤ MAX_CACHE_SIZE + 1 := by
  unfold appGetGo
  split
  · exact h
  · split
    · exact h
    · split
      · exact h
      · split
        · exact h
        · dsimp only
          split
          · split
            · exact h
            · exact appGetGoFetch_cache_length _ _ _ _ _ _
                (le_trans (length_cacheDelete_le _ _) h)
          · exact appGetGoFetch_cache_length _ _ _ _ _ _ h

theorem appPostGo_cache (render : List Nat → List Nat → List Nat)
    (b : Nat → Except FetchErr UpstreamResponse)
    (encQ : Option (List Nat)) (reqBody : List Nat) (cache : Cache) :
    (appPostGo render b encQ reqBody cache).cache = cache := by
  unfold appPostGo
  split
  · rfl
  · split
    · rfl
    · split
      · rfl
      · split
        · rfl
        · dsimp only
          split
          · rfl
          · split <;> rfl

/-- C1 (counterexample): the absolute http URL
`http://example.com/a%20b` is in the claim's domain, but the decode of
its encode is `http://example.com/a b` — `decodeUrl` applies
`decodeURIComponent` even though `encodeUrl` never percent-encoded —
so `decodeUrl (encodeUrl u) = u` fails. -/
theorem c1_counterexample :
    isValidUrl (jstr "http://example.com/a%20b") = true ∧
    decodeUrl (encodeUrl (jstr "http://example.com/a%20b")) =
      some (jstr "http://example.com/a b") ∧
    decodeUrl (encodeUrl (jstr "http://example.com/a%20b")) ≠
      some (jstr "http://example.com/a%20b") :=
  ⟨by decide, by decide, by decide⟩

/-- C1 (amended): for every absolute http/https URL `u` containing no
`%` byte, `decodeUrl (encodeUrl u) = u`; with a percent-escape in `u`
the round trip instead yields `decodeURIComponent u`. -/
theorem c1_roundtrip_no_percent (u : List Nat) (hbytes : ∀ x ∈ u, x < 256)
    (hutf8 : isValidUtf8 u = true) (hnopct : ∀ c ∈ u, c ≠ 37)
    (hurl : isValidUrl u = true) :
    decodeUrl (encodeUrl u) = some u := by
  unfold decodeUrl encodeUrl
  rw [decodeB64_encodeB64 u hbytes, utf8Sanitize_of_valid u hutf8]
  exact decodeURIComponentBytes_no_pct u hnopct

theorem c1_roundtrip_no_percent_witness :
    isValidUrl (jstr "https://example.com/page?q=1") = true ∧
    decodeUrl (encodeUrl (jstr "https://example.com/page?q=1")) =
      some (jstr "https://example.com/page?q=1") :=
  ⟨by decide,
   c1_roundtrip_no_percent _ (by decide) (by decide) (by decide) (by decide)⟩

/-- C2: on `srcset="a.png 1x, b.png 2x"` with target
`http://example.com/page`, the generic attribute pass (which includes
`srcset` in its list) first rewrites the whole value as one URL —
`new URL` percent-encodes the spaces instead of throwing — and the
dedicated srcset pass then re-proxies that already-proxied value.  The
result is a single double-encoded candidate with both descriptors lost,
not the two candidates with preserved descriptors the claim states. -/
theorem c2_srcset_clobbered :
    rewriteResourceUrls
        [Element.mk (jstr "img") [(jstr "srcset", jstr "a.png 1x, b.png 2x")]]
        (jstr "http://example.com/page") PROXY_BASE_URL =
      [Element.mk (jstr "img")
        [(jstr "srcset",
          PROXY_BASE_URL ++ jstr "/go?url=" ++
          encodeUrl (PROXY_BASE_URL ++ jstr "/go?url=" ++
            encodeUrl (jstr "http://example.com/a.png%201x,%20b.png%202x")))]] ∧
    PROXY_BASE_URL ++ jstr "/go?url=" ++
        encodeUrl (PROXY_BASE_URL ++ jstr "/go?url=" ++
          encodeUrl (jstr "http://example.com/a.png%201x,%20b.png%202x")) ≠
      PROXY_BASE_URL ++ jstr "/go?url=" ++ encodeUrl (jstr "http://example.com/a.png") ++
        jstr " 1x, " ++ PROXY_BASE_URL ++ jstr "/go?url=" ++
        encodeUrl (jstr "http://example.com/b.png") ++ jstr " 2x" :=
  ⟨by decide, by decide⟩

/-- C3 (counterexample): inserting `MAX_CACHE_SIZE + 1 = 51` distinct
HTML keys through the `GET /go` handler leaves 51 entries with the
first key still present — `manageCacheSize` runs before `cache.set`
with a strict `>` test, so nothing is evicted at the 51st insertion —
refuting "exactly 50 entries and the first-inserted key absent". -/
theorem c3_counterexample :
    ¬ ((insertTrace (MAX_CACHE_SIZE + 1)).length = MAX_CACHE_SIZE ∧
       cacheHas (insertTrace (MAX_CACHE_SIZE + 1))
         (jstr "get:" ++ encodeUrl (distinctUrl 0)) = false) := by
  decide

/-- C3 (amended): inserting `MAX_CACHE_SIZE + 1` distinct HTML keys
through the handler leaves `MAX_CACHE_SIZE + 1` entries with the
first-inserted key still present; eviction begins one insertion later
(the 52nd), and it removes the entry with the earliest insertion
order. -/
theorem c3_amended_eviction :
    (insertTrace (MAX_CACHE_SIZE + 1)).length = MAX_CACHE_SIZE + 1 ∧
    cacheHas (insertTrace (MAX_CACHE_SIZE + 1))
      (jstr "get:" ++ encodeUrl (distinctUrl 0)) = true ∧
    (insertTrace (MAX_CACHE_SIZE + 2)).length = MAX_CACHE_SIZE + 1 ∧
    cacheHas (insertTrace (MAX_CACHE_SIZE + 2))
      (jstr "get:" ++ encodeUrl (distinctUrl 0)) = false :=
  ⟨by decide, by decide, by decide, by decide⟩

/-- C4: a `GET /go` request with a missing `url` parameter, an encoded
token whose decode throws, or one decoding to anything that is not an
absolute http/https URL, is answered 400 with no upstream attempt and
the cache unchanged (the handler returns before the cache key is even
formed). -/
theorem c4_invalid_rejected (render : List Nat → List Nat → List Nat)
    (b : Nat → Except FetchErr UpstreamResponse)
    (encQ : Option (List Nat)) (now : Nat) (cache : Cache)
    (h : encQ = none ∨
         (∃ enc, encQ = some enc ∧ decodeUrl enc = none) ∨
         (∃ enc t, encQ = some enc ∧ decodeUrl enc = some t ∧ isValidUrl t = false)) :
    (appGetGo render b encQ now cache).status = 400 ∧
    (appGetGo render b encQ now cache).cache = cache ∧
    (appGetGo render b encQ now cache).attempts = 0 := by
  rcases h with h | ⟨enc, henc, hdec⟩ | ⟨enc, t, henc, hdec, hval⟩
  · subst h
    exact ⟨rfl, rfl, rfl⟩
  · subst henc
    by_cases he : enc = []
    · subst he
      exact ⟨rfl, rfl, rfl⟩
    · simp [appGetGo, he, hdec]
  · subst henc
    by_cases he : enc = []
    · subst he
      exact ⟨rfl, rfl, rfl⟩
    · simp [appGetGo, he, hdec, hval]

theorem c4_invalid_rejected_witness :
    (appGetGo (fun _ bdy => bdy) okHtmlOracle none 0 []).status = 400 ∧
    (appGetGo (fun _ bdy => bdy) okHtmlOracle none 0 []).cache = [] ∧
    (appGetGo (fun _ bdy => bdy) okHtmlOracle none 0 []).attempts = 0 :=
  c4_invalid_rejected _ _ _ _ _ (Or.inl rfl)

/-- C5: on the document `<img src="/a.png">` fetched from
`http://example.com/page`, the rewrite pass resolves the value against
the target URL and replaces it with
`{proxyBaseUrl}/go?url={encodeUrl('http://example.com/a.png')}`. -/
theorem c5_img_src_rewrite :
    rewriteResourceUrls [Element.mk (jstr "img") [(jstr "src", jstr "/a.png")]]
        (jstr "http://example.com/page") PROXY_BASE_URL =
      [Element.mk (jstr "img")
        [(jstr "src",
          PROXY_BASE_URL ++ jstr "/go?url=" ++
          encodeUrl (jstr "http://example.com/a.png"))]] := by
  decide

theorem appPostGo_attempts (render : List Nat → List Nat → List Nat)
    (b : Nat → Except FetchErr UpstreamResponse)
    (enc reqBody target : List Nat) (cache : Cache)
    (hne : enc ≠ []) (hdec : decodeUrl enc = some target)
    (hval : isValidUrl target = true) :
    (appPostGo render b (some enc) reqBody cache).attempts =
      (fetchWithRetry b 0 2).2.1 := by
  unfold appPostGo
  simp only [if_neg hne, hdec]
  rw [if_neg (by simp [hval] : ¬ ¬ isValidUrl target = true)]
  split <;> (try split) <;> rfl

/-- C6: when the first two attempts throw and the third succeeds,
`fetchWithRetry` with retry bound 2 returns the successful response
after three attempts with the fixed 1000 ms delay before each retry;
when all three attempts throw, the handler's catch turns the final
error into a 500 response. -/
theorem c6_retry_behavior
    (b b2 : Nat → Except FetchErr UpstreamResponse)
    (e1 e2 f1 f2 f3 : FetchErr) (r : UpstreamResponse)
    (render : List Nat → List Nat → List Nat)
    (enc target : List Nat) (now : Nat)
    (hb0 : b 0 = .error e1) (hb1 : b 1 = .error e2) (hb2 : b 2 = .ok r)
    (hc0 : b2 0 = .error f1) (hc1 : b2 1 = .error f2) (hc2 : b2 2 = .error f3)
    (henc : enc ≠ []) (hdec : decodeUrl enc = some target)
    (hval : isValidUrl target = true) :
    fetchWithRetry b 0 2 = (.ok r, 3, [1000, 1000]) ∧
    fetchWithRetry b2 0 2 = (.error f3, 3, [1000, 1000]) ∧
    (appGetGo render b2 (some enc) now []).status = 500 ∧
    (appGetGo render b2 (some enc) now []).attempts = 3 := by
  have hf : fetchWithRetry b 0 2 = (.ok r, 3, [1000, 1000]) := by
    simp [fetchWithRetry, hb0, hb1, hb2]
  have hf2 : fetchWithRetry b2 0 2 = (.error f3, 3, [1000, 1000]) := by
    simp [fetchWithRetry, hc0, hc1, hc2]
  have happ : appGetGo render b2 (some enc) now [] =
      appGetGoFetch render b2 target (jstr "get:" ++ enc) now [] := by
    simp [appGetGo, henc, hdec, hval, cacheGet]
  refine ⟨hf, hf2, ?_, ?_⟩ <;> rw [happ] <;> simp [appGetGoFetch, hf2]

/-- C7: a first attempt returning an HTTP response — 2xx or not — ends
`fetchWithRetry` at one attempt with no delay, and the handler answers
a non-2xx upstream response with the upstream's own status code. -/
theorem c7_non2xx_no_retry
    (b : Nat → Except FetchErr UpstreamResponse) (r : UpstreamResponse)
    (render : List Nat → List Nat → List Nat)
    (enc target : List Nat) (now : Nat)
    (hb0 : b 0 = .ok r)
    (henc : enc ≠ []) (hdec : decodeUrl enc = some target)
    (hval : isValidUrl target = true)
    (hnok : respOk r = false) :
    fetchWithRetry b 0 2 = (.ok r, 1, []) ∧
    (appGetGo render b (some enc) now []).status = r.status ∧
    (appGetGo render b (some enc) now []).attempts = 1 := by
  have hf : fetchWithRetry b 0 2 = (.ok r, 1, []) := by
    simp [fetchWithRetry, hb0]
  have happ : appGetGo render b (some enc) now [] =
      appGetGoFetch render b target (jstr "get:" ++ enc) now [] := by
    simp [appGetGo, henc, hdec, hval, cacheGet]
  refine ⟨hf, ?_, ?_⟩ <;> rw [happ] <;> simp [appGetGoFetch, hf, hnok]

/-- C8: a cache entry whose timestamp `T` satisfies `T + CACHE_TTL < now`
is a miss for the `GET /go` handler: nothing is served from the cache,
at least one fresh upstream attempt is made, and the stale entry is
gone afterwards — deleted on the read, and at most replaced by a fresh
entry stamped `now`. -/
theorem c8_stale_is_miss (render : List Nat → List Nat → List Nat)
    (b : Nat → Except FetchErr UpstreamResponse)
    (enc target : List Nat) (now : Nat) (cache : Cache) (e : CacheEntry)
    (henc : enc ≠ []) (hdec : decodeUrl enc = some target)
    (hval : isValidUrl target = true)
    (hget : cacheGet cache (jstr "get:" ++ enc) = some e)
    (hstale : e.timestamp + CACHE_TTL < now) :
    (appGetGo render b (some enc) now cache).fromCache = false ∧
    1 ≤ (appGetGo render b (some enc) now cache).attempts ∧
    (cacheGet (appGetGo render b (some enc) now cache).cache (jstr "get:" ++ enc) = none ∨
     ∃ e2, cacheGet (appGetGo render b (some enc) now cache).cache (jstr "get:" ++ enc) =
             some e2 ∧ e2.timestamp = now) := by
  have hfresh : ¬ (now - e.timestamp < CACHE_TTL) := by omega
  have happ : appGetGo render b (some enc) now cache =
      appGetGoFetch render b target (jstr "get:" ++ enc) now
        (cacheDelete cache (jstr "get:" ++ enc)) := by
    simp [appGetGo, henc, hdec, hval, hget, hfresh]
  rw [happ]
  refine ⟨appGetGoFetch_fromCache _ _ _ _ _ _, ?_, ?_⟩
  · rw [appGetGoFetch_attempts]
    exact fetchWithRetry_attempts_pos _ _ _
  · rcases appGetGoFetch_cache_cases render b target (jstr "get:" ++ enc) now
        (cacheDelete cache (jstr "get:" ++ enc)) with hc | ⟨bdy, hc⟩ <;> rw [hc]
    · exact Or.inl (cacheGet_delete _ _)
    · exact Or.inr ⟨_, cacheGet_set _ _ _, rfl⟩

theorem c8_stale_is_miss_witness :
    (appGetGo (fun _ bdy => bdy) okHtmlOracle (some (encodeUrl (distinctUrl 0)))
        (CACHE_TTL + 1)
        [(jstr "get:" ++ encodeUrl (distinctUrl 0),
          CacheEntry.mk (distinctUrl 0) (jstr "old") 0)]).fromCache = false ∧
    1 ≤ (appGetGo (fun _ bdy => bdy) okHtmlOracle (some (encodeUrl (distinctUrl 0)))
        (CACHE_TTL + 1)
        [(jstr "get:" ++ encodeUrl (distinctUrl 0),
          CacheEntry.mk (distinctUrl 0) (jstr "old") 0)]).attempts ∧
    (cacheGet (appGetGo (fun _ bdy => bdy) okHtmlOracle (some (encodeUrl (distinctUrl 0)))
        (CACHE_TTL + 1)
        [(jstr "get:" ++ encodeUrl (distinctUrl 0),
          CacheEntry.mk (distinctUrl 0) (jstr "old") 0)]).cache
        (jstr "get:" ++ encodeUrl (distinctUrl 0)) = none ∨
     ∃ e2, cacheGet (appGetGo (fun _ bdy => bdy) okHtmlOracle
        (some (encodeUrl (distinctUrl 0))) (CACHE_TTL + 1)
        [(jstr "get:" ++ encodeUrl (distinctUrl 0),
          CacheEntry.mk (distinctUrl 0) (jstr "old") 0)]).cache
        (jstr "get:" ++ encodeUrl (distinctUrl 0)) = some e2 ∧
        e2.timestamp = CACHE_TTL + 1) :=
  c8_stale_is_miss (fun _ bdy => bdy) okHtmlOracle (encodeUrl (distinctUrl 0))
    (distinctUrl 0) (CACHE_TTL + 1)
    [(jstr "get:" ++ encodeUrl (distinctUrl 0),
      CacheEntry.mk (distinctUrl 0) (jstr "old") 0)]
    (CacheEntry.mk (distinctUrl 0) (jstr "old") 0)
    (by decide) (by decide) (by decide) (by decide) (by decide)

/-- C9: the `POST /go` handler neither reads nor writes the response
cache — the cache is identical before and after, for every input — and
each valid POST performs at least one upstream attempt, so a repeated
identical POST hits the upstream again rather than any cache. -/
theorem c9_post_cache_frame (render : List Nat → List Nat → List Nat)
    (b : Nat → Except FetchErr UpstreamResponse)
    (encQ : Option (List Nat)) (reqBody : List Nat) (cache : Cache) :
    (appPostGo render b encQ reqBody cache).cache = cache ∧
    (∀ enc target, encQ = some enc → enc ≠ [] → decodeUrl enc = some target →
      isValidUrl target = true →
      1 ≤ (appPostGo render b encQ reqBody cache).attempts ∧
      1 ≤ (appPostGo render b encQ reqBody
            (appPostGo render b encQ reqBody cache).cache).attempts) := by
  refine ⟨appPostGo_cache _ _ _ _ _, ?_⟩
  intro enc target henc hne hdec hval
  subst henc
  constructor <;>
    (rw [appPostGo_attempts render b enc reqBody target _ hne hdec hval];
     exact fetchWithRetry_attempts_pos _ _ _)

theorem c9_post_cache_frame_witness :
    (appPostGo (fun _ bdy => bdy) okHtmlOracle (some (encodeUrl (distinctUrl 0)))
      [] []).cache = [] ∧
    1 ≤ (appPostGo (fun _ bdy => bdy) okHtmlOracle (some (encodeUrl (distinctUrl 0)))
      [] []).attempts :=
  ⟨(c9_post_cache_frame (fun _ bdy => bdy) okHtmlOracle
      (some (encodeUrl (distinctUrl 0))) [] []).1,
   ((c9_post_cache_frame (fun _ bdy => bdy) okHtmlOracle
      (some (encodeUrl (distinctUrl 0))) [] []).2 (encodeUrl (distinctUrl 0))
      (distinctUrl 0) rfl (by decide) (by decide) (by decide)).1⟩

/-- C10: `manageCacheSize` deletes at most one entry; one handler
insertion (`manageCacheSize` then `cache.set`) changes the size by at
most one; and every cache state reachable from the empty cache through
the request handlers and `POST /clear-cache` has at most
`MAX_CACHE_SIZE + 1` entries. -/
theorem c10_cache_bounds :
    (∀ c : Cache, c.length - 1 ≤ (manageCacheSize c).length ∧
        (manageCacheSize c).length ≤ c.length) ∧
    (∀ (c : Cache) (k : List Nat) (v : CacheEntry),
        (cacheSet (manageCacheSize c) k v).length ≤ c.length + 1 ∧
        c.length ≤ (cacheSet (manageCacheSize c) k v).length + 1) ∧
    (∀ c : Cache, CacheReachable c → c.length ≤ MAX_CACHE_SIZE + 1) := by
  refine ⟨?_, ?_, ?_⟩
  · intro c
    rw [length_manageCacheSize]
    split <;> omega
  · intro c k v
    rw [length_cacheSet, length_manageCacheSize]
    split <;> split <;> omega
  · intro c h
    induction h with
    | refl => simp
    | tail hsteps hstep ih =>
      cases hstep with
      | get render b encQ now c0 => exact appGetGo_cache_length _ _ _ _ _ ih
      | post render b encQ reqBody c0 =>
        rw [appPostGo_cache]
        exact ih
      | clear c0 => simp

theorem c10_cache_bounds_witness :
    ([] : Cache).length ≤ MAX_CACHE_SIZE + 1 :=
  c10_cache_bounds.2.2 [] Relation.ReflTransGen.refl

theorem c6_retry_behavior_witness :
    fetchWithRetry flakyOracle 0 2 =
      (.ok (UpstreamResponse.mk 200 (jstr "OK") (jstr "text/html") (jstr "<html></html>")),
       3, [1000, 1000]) ∧
    fetchWithRetry failOracle 0 2 =
      (.error (FetchErr.mk (jstr "ECONNREFUSED")), 3, [1000, 1000]) ∧
    (appGetGo (fun _ bdy => bdy) failOracle (some (encodeUrl (distinctUrl 0)))
      0 []).status = 500 ∧
    (appGetGo (fun _ bdy => bdy) failOracle (some (encodeUrl (distinctUrl 0)))
      0 []).attempts = 3 :=
  c6_retry_behavior flakyOracle failOracle
    (FetchErr.mk (jstr "ETIMEDOUT")) (FetchErr.mk (jstr "ETIMEDOUT"))
    (FetchErr.mk (jstr "ECONNREFUSED")) (FetchErr.mk (jstr "ECONNREFUSED"))
    (FetchErr.mk (jstr "ECONNREFUSED"))
    (UpstreamResponse.mk 200 (jstr "OK") (jstr "text/html") (jstr "<html></html>"))
    (fun _ bdy => bdy) (encodeUrl (distinctUrl 0)) (distinctUrl 0) 0
    rfl rfl rfl rfl rfl rfl (by decide) (by decide) (by decide)

theorem c7_non2xx_no_retry_witness :
    fetchWithRetry notFoundOracle 0 2 =
      (.ok (UpstreamResponse.mk 404 (jstr "Not Found") (jstr "text/html") (jstr "gone")),
       1, []) ∧
    (appGetGo (fun _ bdy => bdy) notFoundOracle (some (encodeUrl (distinctUrl 0)))
      0 []).status = 404 ∧
    (appGetGo (fun _ bdy => bdy) notFoundOracle (some (encodeUrl (distinctUrl 0)))
      0 []).attempts = 1 :=
  c7_non2xx_no_retry notFoundOracle
    (UpstreamResponse.mk 404 (jstr "Not Found") (jstr "text/html") (jstr "gone"))
    (fun _ bdy => bdy) (encodeUrl (distinctUrl 0)) (distinctUrl 0) 0
    rfl (by decide) (by decide) (by decide) (by decide)
